import Mathlib

/-!
Shallow embedding of the analysis pipeline in `web_app.py`: the sqlite-backed
record store (`init_db`, the history queries, the clear-all handler), the
streaming generator `stream_data`, the batch loop with its credential and
file-size guards, the lossy UTF-8 decode of uploaded bytes, and the
relationship extractor `render_graph` together with the readable-summary
split used by the report view.
-/

namespace StoryStation

/-- One row of the `analysis_history` table
    (id INTEGER PRIMARY KEY AUTOINCREMENT, filename TEXT, summary TEXT, time TEXT). -/
structure AnalysisRecord where
  id : Nat
  filename : String
  summary : String
  time : String
deriving DecidableEq, Repr

/-- The sqlite store: the rows (newest first, i.e. descending id, matching the
    `ORDER BY id DESC` read) together with the AUTOINCREMENT counter, which
    sqlite keeps in `sqlite_sequence` and does not reset on DELETE. -/
structure Store where
  nextId : Nat
  records : List AnalysisRecord
deriving DecidableEq, Repr

/-- Fresh database created by `init_db`: empty table, ids start at 1. -/
def initStore : Store := ⟨1, []⟩

/-- `INSERT INTO analysis_history (filename, summary, time) VALUES (?, ?, ?)`:
    the store assigns the next id. -/
def insertRecord (st : Store) (filename summary time : String) : Store :=
  ⟨st.nextId + 1, ⟨st.nextId, filename, summary, time⟩ :: st.records⟩

/-- `SELECT id, filename, time FROM analysis_history ORDER BY id DESC` —
    with rows kept newest first this is the list itself. -/
def listAll (st : Store) : List AnalysisRecord := st.records

/-- `SELECT filename, summary FROM analysis_history WHERE id=?`. -/
def fetchById (st : Store) (i : Nat) : Option AnalysisRecord :=
  st.records.find? (fun r => r.id == i)

/-- `DELETE FROM analysis_history` (the clear-all button): removes every row;
    the AUTOINCREMENT counter survives. -/
def deleteAll (st : Store) : Store := ⟨st.nextId, []⟩

/-- The two mutating statements the script ever issues against the store:
    the INSERT inside `stream_data` and the clear-all DELETE. -/
inductive StoreOp where
  | insertOp (filename summary time : String)
  | deleteAllOp
deriving DecidableEq, Repr

def applyOp (st : Store) : StoreOp → Store
  | .insertOp f s t => insertRecord st f s t
  | .deleteAllOp => deleteAll st

def applyOps (st : Store) : List StoreOp → Store
  | [] => st
  | op :: ops => applyOps (applyOp st op) ops

/-! ### The streaming generator `stream_data` -/

/-- Concatenation of a list of text fragments, in order. -/
def concatFragments (l : List String) : String := l.foldr (· ++ ·) ""

/-- The `for chunk in response` loop of `stream_data`: starting from the
    accumulator `acc` (`full_response`), each chunk is appended to the
    accumulator and yielded.  Returns (yielded fragments, final accumulator). -/
def streamChunks : List String → String → List String × String
  | [], acc => ([], acc)
  | c :: cs, acc =>
    let r := streamChunks cs (acc ++ c)
    (c :: r.1, r.2)

/-- A full successful run of `stream_data`: run the chunk loop starting from
    the empty `full_response`, then insert the accumulated text as a new row.
    Returns (yielded fragments, store after the insert). -/
def streamData (chunks : List String) (filename now : String) (st : Store) :
    List String × Store :=
  let r := streamChunks chunks ""
  (r.1, insertRecord st filename r.2 now)

/-! Small-step view of the generator, for the claims about what is visible
    while fragments are still being consumed.  A configuration records the
    fragments not yet delivered, whether the stream source will end cleanly
    (`clean = true`) or raise once the listed fragments are exhausted, the
    accumulator, the store, and the phase. -/

inductive GenPhase where
  | running
  | committed
  | raised
deriving DecidableEq, Repr

structure GenCfg where
  pending : List String
  clean : Bool
  buffer : String
  store : Store
  phase : GenPhase
deriving Repr

/-- One step of the generator for a given file: deliver the next fragment
    (appending it to `full_response` first, as the loop body does), or — once
    the source is exhausted — either run the completion code (the INSERT and
    commit) or propagate the source's exception, which skips the insert. -/
inductive GenStep (filename now : String) : GenCfg → GenCfg → Prop where
  | yield (c : String) (cs : List String) (ok : Bool) (buf : String) (st : Store) :
      GenStep filename now ⟨c :: cs, ok, buf, st, .running⟩ ⟨cs, ok, buf ++ c, st, .running⟩
  | commit (buf : String) (st : Store) :
      GenStep filename now ⟨[], true, buf, st, .running⟩
        ⟨[], true, buf, insertRecord st filename buf now, .committed⟩
  | fail (buf : String) (st : Store) :
      GenStep filename now ⟨[], false, buf, st, .running⟩ ⟨[], false, buf, st, .raised⟩

/-- Initial configuration for one file's stream. -/
def initCfg (chunks : List String) (ok : Bool) (st : Store) : GenCfg :=
  ⟨chunks, ok, "", st, .running⟩

/-! ### Lossy text decoding of uploaded bytes

`file.read().decode("utf-8", errors="ignore")` — decode the byte content as
UTF-8, silently dropping undecodable byte sequences.  One scalar at a time:
`utf8Step` either decodes a leading well-formed sequence, or reports how many
bytes form the maximal valid subpart to be skipped (always at least one). -/

/-- Decode one UTF-8 scalar from the front of the byte list, or report the
    number of bytes of the invalid maximal subpart. -/
def utf8Step : List Nat → Except Nat (Char × List Nat)
  | [] => .error 1
  | b0 :: rest =>
    if b0 < 0x80 then .ok (Char.ofNat b0, rest)
    else if b0 < 0xC2 then .error 1
    else if b0 ≤ 0xDF then
      match rest with
      | b1 :: rest1 =>
        if 0x80 ≤ b1 ∧ b1 ≤ 0xBF then
          .ok (Char.ofNat ((b0 - 0xC0) * 0x40 + (b1 - 0x80)), rest1)
        else .error 1
      | [] => .error 1
    else if b0 ≤ 0xEF then
      let lo1 := if b0 = 0xE0 then 0xA0 else 0x80
      let hi1 := if b0 = 0xED then 0x9F else 0xBF
      match rest with
      | b1 :: rest1 =>
        if lo1 ≤ b1 ∧ b1 ≤ hi1 then
          match rest1 with
          | b2 :: rest2 =>
            if 0x80 ≤ b2 ∧ b2 ≤ 0xBF then
              .ok (Char.ofNat ((b0 - 0xE0) * 0x1000 + (b1 - 0x80) * 0x40 + (b2 - 0x80)), rest2)
            else .error 2
          | [] => .error 2
        else .error 1
      | [] => .error 1
    else if b0 ≤ 0xF4 then
      let lo1 := if b0 = 0xF0 then 0x90 else 0x80
      let hi1 := if b0 = 0xF4 then 0x8F else 0xBF
      match rest with
      | b1 :: rest1 =>
        if lo1 ≤ b1 ∧ b1 ≤ hi1 then
          match rest1 with
          | b2 :: rest2 =>
            if 0x80 ≤ b2 ∧ b2 ≤ 0xBF then
              match rest2 with
              | b3 :: rest3 =>
                if 0x80 ≤ b3 ∧ b3 ≤ 0xBF then
                  .ok (Char.ofNat ((b0 - 0xF0) * 0x40000 + (b1 - 0x80) * 0x1000 +
                        (b2 - 0x80) * 0x40 + (b3 - 0x80)), rest3)
                else .error 3
              | [] => .error 3
            else .error 2
          | [] => .error 2
        else .error 1
      | [] => .error 1
    else .error 1

/-- `decode("utf-8", errors="ignore")`: invalid subparts are dropped.
    Fuel is the byte count; every iteration consumes at least one byte. -/
def utf8DecodeIgnoreAux : Nat → List Nat → List Char
  | 0, _ => []
  | _ + 1, [] => []
  | fuel + 1, b :: bs =>
    match utf8Step (b :: bs) with
    | .ok (c, rest) => c :: utf8DecodeIgnoreAux fuel rest
    | .error k => utf8DecodeIgnoreAux fuel ((b :: bs).drop (max k 1))

def utf8DecodeIgnore (bs : List Nat) : List Char :=
  utf8DecodeIgnoreAux bs.length bs

/-- Strict UTF-8 decoding (what `decode("utf-8")` with no error handler would
    do): any invalid subpart is a decode error. -/
def utf8DecodeStrictAux : Nat → List Nat → Option (List Char)
  | 0, [] => some []
  | 0, _ :: _ => none
  | _ + 1, [] => some []
  | fuel + 1, b :: bs =>
    match utf8Step (b :: bs) with
    | .ok (c, rest) => (utf8DecodeStrictAux fuel rest).map (c :: ·)
    | .error _ => none

def utf8DecodeStrict (bs : List Nat) : Option (List Char) :=
  utf8DecodeStrictAux bs.length bs

/-- Modelled from the spec: the spec's claimed `errors="replace"` behaviour —
    each undecodable maximal subpart is replaced by U+FFFD.  Written from the
    spec's words ("handled by lossy replacement") for comparison with the
    code's `errors="ignore"` decode; it is not in the source. -/
def specReplaceDecodeAux : Nat → List Nat → List Char
  | 0, _ => []
  | _ + 1, [] => []
  | fuel + 1, b :: bs =>
    match utf8Step (b :: bs) with
    | .ok (c, rest) => c :: specReplaceDecodeAux fuel rest
    | .error k => Char.ofNat 0xFFFD :: specReplaceDecodeAux fuel ((b :: bs).drop (max k 1))

def specReplaceDecode (bs : List Nat) : List Char :=
  specReplaceDecodeAux bs.length bs

/-! ### `json.loads` and the relationship extractor `render_graph` -/

/-- A decoded JSON value.  Numbers keep their lexeme: no claim inspects
    numeric values, only whether decoding succeeds. -/
inductive Json where
  | null
  | bool (b : Bool)
  | num (lit : String)
  | str (s : String)
  | arr (items : List Json)
  | obj (fields : List (String × Json))
deriving Repr

/-- JSON whitespace accepted between tokens (space, tab, newline, return). -/
def skipWs : List Char → List Char
  | c :: cs => if c = ' ' ∨ c = '\t' ∨ c = '\n' ∨ c = '\r' then skipWs cs else c :: cs
  | [] => []

/-- Insert a key into an object under construction the way the Python dict
    does: a duplicate key overwrites in place, a new key is appended. -/
def objInsert : List (String × Json) → String → Json → List (String × Json)
  | [], k, v => [(k, v)]
  | (k0, v0) :: rest, k, v =>
    if k0 = k then (k0, v) :: rest else (k0, v0) :: objInsert rest k v

def isHexDigit (c : Char) : Bool :=
  ('0' ≤ c ∧ c ≤ '9') ∨ ('a' ≤ c ∧ c ≤ 'f') ∨ ('A' ≤ c ∧ c ≤ 'F')

def hexVal (c : Char) : Nat :=
  if '0' ≤ c ∧ c ≤ '9' then c.toNat - '0'.toNat
  else if 'a' ≤ c ∧ c ≤ 'f' then c.toNat - 'a'.toNat + 10
  else c.toNat - 'A'.toNat + 10

/-- Parse the body of a JSON string literal (the opening quote already
    consumed).  Strict mode: unescaped control characters are rejected.
    `\uXXXX` escapes outside the scalar range collapse to U+FFFD (the
    embedding does not track surrogate pairs; no claim depends on them). -/
def parseStringBody : List Char → List Char → Option (String × List Char)
  | acc, '"' :: rest => some (String.mk acc.reverse, rest)
  | acc, '\\' :: e :: rest =>
    match e with
    | '"' => parseStringBody ('"' :: acc) rest
    | '\\' => parseStringBody ('\\' :: acc) rest
    | '/' => parseStringBody ('/' :: acc) rest
    | 'b' => parseStringBody (Char.ofNat 8 :: acc) rest
    | 'f' => parseStringBody (Char.ofNat 12 :: acc) rest
    | 'n' => parseStringBody ('\n' :: acc) rest
    | 'r' => parseStringBody ('\r' :: acc) rest
    | 't' => parseStringBody ('\t' :: acc) rest
    | 'u' =>
      match rest with
      | h1 :: h2 :: h3 :: h4 :: rest4 =>
        if isHexDigit h1 ∧ isHexDigit h2 ∧ isHexDigit h3 ∧ isHexDigit h4 then
          let n := ((hexVal h1 * 16 + hexVal h2) * 16 + hexVal h3) * 16 + hexVal h4
          parseStringBody (Char.ofNat n :: acc) rest4
        else none
      | _ => none
    | _ => none
  | acc, c :: rest =>
    if c.toNat < 0x20 then none else parseStringBody (c :: acc) rest
  | _, [] => none

/-- Longest run of decimal digits at the front. -/
def takeDigits : List Char → List Char × List Char
  | c :: cs =>
    if '0' ≤ c ∧ c ≤ '9' then
      let r := takeDigits cs
      (c :: r.1, r.2)
    else ([], c :: cs)
  | [] => ([], [])

/-- JSON number grammar: `-? (0 | [1-9][0-9]*) frac? exp?`.
    Returns the lexeme. -/
def parseNumber (s : List Char) : Option (String × List Char) := do
  let (sign, s1) := match s with
    | '-' :: t => (['-'], t)
    | t => (([] : List Char), t)
  let (intPart, s2) ← match takeDigits s1 with
    | ([], _) => none
    | ('0' :: _ :: _, _) => none
    | (ds, t) => some (ds, t)
  let (fracPart, s3) ← match s2 with
    | '.' :: t =>
      match takeDigits t with
      | ([], _) => none
      | (ds, t2) => some ('.' :: ds, t2)
    | t => some (([] : List Char), t)
  let (expPart, s4) ← match s3 with
    | e :: t =>
      if e = 'e' ∨ e = 'E' then
        let (sgn, t1) := match t with
          | '+' :: t2 => (['+'], t2)
          | '-' :: t2 => (['-'], t2)
          | t2 => (([] : List Char), t2)
        match takeDigits t1 with
        | ([], _) => none
        | (ds, t2) => some (e :: (sgn ++ ds), t2)
      else some (([] : List Char), e :: t)
    | [] => some (([] : List Char), [])
  pure (String.mk (sign ++ intPart ++ fracPart ++ expPart), s4)

mutual

/-- Parse one JSON value (leading whitespace allowed). -/
def parseValue : Nat → List Char → Option (Json × List Char)
  | 0, _ => none
  | fuel + 1, s =>
    match skipWs s with
    | [] => none
    | c :: cs =>
      if c = '{' then parseMembers fuel cs []
      else if c = '[' then parseItems fuel cs []
      else if c = '"' then (parseStringBody [] cs).map (fun r => (.str r.1, r.2))
      else if c = 't' then
        match cs with
        | 'r' :: 'u' :: 'e' :: rest => some (.bool true, rest)
        | _ => none
      else if c = 'f' then
        match cs with
        | 'a' :: 'l' :: 's' :: 'e' :: rest => some (.bool false, rest)
        | _ => none
      else if c = 'n' then
        match cs with
        | 'u' :: 'l' :: 'l' :: rest => some (.null, rest)
        | _ => none
      else (parseNumber (c :: cs)).map (fun r => (.num r.1, r.2))

/-- Parse object members after `{` (or after a comma), with the fields
    accumulated so far. -/
def parseMembers : Nat → List Char → List (String × Json) → Option (Json × List Char)
  | 0, _, _ => none
  | fuel + 1, s, acc =>
    match skipWs s with
    | '}' :: rest => if acc.isEmpty then some (.obj [], rest) else none
    | '"' :: cs => do
      let (k, s1) ← parseStringBody [] cs
      match skipWs s1 with
      | ':' :: s2 => do
        let (v, s3) ← parseValue fuel s2
        let acc2 := objInsert acc k v
        match skipWs s3 with
        | ',' :: s4 => parseMembersMore fuel s4 acc2
        | '}' :: rest => some (.obj acc2, rest)
        | _ => none
      | _ => none
    | _ => none

/-- Members after a comma: a closing `}` is no longer allowed. -/
def parseMembersMore : Nat → List Char → List (String × Json) → Option (Json × List Char)
  | 0, _, _ => none
  | fuel + 1, s, acc =>
    match skipWs s with
    | '"' :: cs => do
      let (k, s1) ← parseStringBody [] cs
      match skipWs s1 with
      | ':' :: s2 => do
        let (v, s3) ← parseValue fuel s2
        let acc2 := objInsert acc k v
        match skipWs s3 with
        | ',' :: s4 => parseMembersMore fuel s4 acc2
        | '}' :: rest => some (.obj acc2, rest)
        | _ => none
      | _ => none
    | _ => none

/-- Parse array items after `[` (empty array allowed). -/
def parseItems : Nat → List Char → List Json → Option (Json × List Char)
  | 0, _, _ => none
  | fuel + 1, s, acc =>
    match skipWs s with
    | ']' :: rest => if acc.isEmpty then some (.arr [], rest) else none
    | s1 => do
      let (v, s2) ← parseValue fuel s1
      match skipWs s2 with
      | ',' :: s3 => parseItemsMore fuel s3 (acc ++ [v])
      | ']' :: rest => some (.arr (acc ++ [v]), rest)
      | _ => none

/-- Items after a comma: a closing `]` is no longer allowed directly. -/
def parseItemsMore : Nat → List Char → List Json → Option (Json × List Char)
  | 0, _, _ => none
  | fuel + 1, s, acc => do
    let (v, s2) ← parseValue fuel s
    match skipWs s2 with
    | ',' :: s3 => parseItemsMore fuel s3 (acc ++ [v])
    | ']' :: rest => some (.arr (acc ++ [v]), rest)
    | _ => none

end

/-- `json.loads`: parse one value and require only whitespace after it. -/
def jsonLoads (s : List Char) : Option Json :=
  match parseValue (s.length + 1) s with
  | some (j, rest) => if skipWs rest = [] then some j else none
  | none => none

/-! Python primitives used by `render_graph` and the report view. -/

/-- `raw_text.find(c)`: index of the first occurrence, `none` for Python's -1. -/
def pyFindIdx (c : Char) : List Char → Option Nat
  | [] => none
  | x :: xs => if x = c then some 0 else (pyFindIdx c xs).map (· + 1)

/-- `raw_text.rfind(c)`: index of the last occurrence. -/
def pyRFindIdx (c : Char) : List Char → Option Nat
  | [] => none
  | x :: xs =>
    match pyRFindIdx c xs with
    | some i => some (i + 1)
    | none => if x = c then some 0 else none

/-- `s[start:stop]` for non-negative bounds: characters at indices
    `start ≤ i < stop` (empty when `stop ≤ start`). -/
def pySlice (cs : List Char) (start stop : Nat) : List Char :=
  (cs.take stop).drop start

/-- `for x in v`: Python iteration over a decoded JSON value.  A list yields
    its items, a string its characters (as 1-character strings), a dict its
    keys; numbers, booleans and None are not iterable (TypeError). -/
def pyIter : Json → Option (List Json)
  | .arr xs => some xs
  | .str s => some (s.data.map (fun c => .str (String.mk [c])))
  | .obj fs => some (fs.map (fun p => .str p.1))
  | _ => none

/-- `v[i]` for a non-negative index: lists and strings index positionally
    (IndexError out of range); a dict with an integer key raises KeyError
    (JSON object keys are strings); other values raise TypeError. -/
def pySubscript (v : Json) (i : Nat) : Option Json :=
  match v with
  | .arr xs => xs.get? i
  | .str s => (s.data.get? i).map (fun c => .str (String.mk [c]))
  | _ => none

/-- `data.get(k, default)`: only a dict has `.get` (AttributeError otherwise);
    a missing key yields the default. -/
def pyDictGet (v : Json) (k : String) (dflt : Json) : Option Json :=
  match v with
  | .obj fs => some (((fs.find? (fun p => p.1 == k)).map Prod.snd).getD dflt)
  | _ => none

/-- The body of `render_graph`'s `try` block after the brace check, on the
    slice `raw_text[start:end]`: `json.loads`, then the nodes comprehension
    over `data.get('nodes', [])`, then the edges comprehension taking
    `e[0], e[1], e[2]` from each element of `data.get('edges', [])`.
    `none` models any raised exception (caught by the `except`). -/
def extractGraph (slice : List Char) : Option (List Json × List (Json × Json × Json)) := do
  let data ← jsonLoads slice
  let nodesVal ← pyDictGet data "nodes" (.arr [])
  let nodeItems ← pyIter nodesVal
  let edgesVal ← pyDictGet data "edges" (.arr [])
  let edgeItems ← pyIter edgesVal
  let edges ← edgeItems.mapM (fun e => do
    let a ← pySubscript e 0
    let b ← pySubscript e 1
    let l ← pySubscript e 2
    pure (a, b, l))
  pure (nodeItems, edges)

/-- Outcome of `render_graph`: the `st.info` branch when a brace is missing,
    the rendered graph, or the `st.warning` of the `except` clause. -/
inductive GraphResult where
  | noGraph
  | rendered (nodes : List Json) (edges : List (Json × Json × Json))
  | malformed
deriving Repr

/-- `render_graph(raw_text)`: locate the first `{` and the last `}`; if either
    is absent return the info result; otherwise decode the slice and render,
    any exception becoming the warning result. -/
def renderGraph (raw : String) : GraphResult :=
  let cs := raw.data
  match pyFindIdx '{' cs, pyRFindIdx '}' cs with
  | some start, some close =>
    match extractGraph (pySlice cs start (close + 1)) with
    | some (ns, es) => .rendered ns es
    | none => .malformed
  | _, _ => .noGraph

/-- The report view's plain-text tab: `res[1].split('{')[0]`, the text
    before the first `{` (the whole string when there is none). -/
def readableSummary (s : String) : String :=
  String.mk (s.data.takeWhile (fun c => c ≠ '{'))

/-! ### The batch loop -/

/-- One uploaded file: name and raw byte content (`file.size` is the byte
    count, `file.read()` the bytes). -/
structure FileInput where
  name : String
  bytes : List Nat
deriving Repr

def FileInput.size (f : FileInput) : Nat := f.bytes.length

/-- Behaviour of the external generation service for one file: either the
    stream ends cleanly after the listed fragments, or the call (or the
    stream, or a fragment's `.text`) raises after the listed fragments. -/
inductive StreamResult where
  | ok (chunks : List String)
  | raises (chunksBeforeError : List String)
deriving Repr

/-- Observable side effects of the batch loop, in order: the credential
    error, the oversize warning, a per-file error from the `except` clause,
    the success message, and the rate-limit pause. -/
inductive Event where
  | credentialError
  | sizeWarning (filename : String)
  | fileError (filename : String)
  | fileSuccess (filename : String)
  | waited
deriving DecidableEq, Repr

/-- The `for index, file in enumerate(uploaded_files)` loop.  Each input is
    paired with the service's behaviour for it.  Oversized files are skipped
    with a warning (`continue`, which also skips the pause).  Otherwise the
    bytes are decoded lossily, the service is invoked (counted), and on a
    clean stream the generator runs to completion and inserts; a raise is
    caught by the `except`, discarding the buffer.  The pause runs only on
    the success path and only when the file is not the last.
    Returns (store, number of service invocations, events). -/
def runFiles (now : String) : List (FileInput × StreamResult) → Store → Store × Nat × List Event
  | [], st => (st, 0, [])
  | (f, res) :: rest, st =>
    if f.size > 1024 * 1024 then
      let r := runFiles now rest st
      (r.1, r.2.1, .sizeWarning f.name :: r.2.2)
    else
      let _content := utf8DecodeIgnore f.bytes
      match res with
      | .ok chunks =>
        let st2 := (streamData chunks f.name now st).2
        let r := runFiles now rest st2
        let evs := if rest.isEmpty then [Event.fileSuccess f.name]
                   else [Event.fileSuccess f.name, Event.waited]
        (r.1, r.2.1 + 1, evs ++ r.2.2)
      | .raises _ =>
        let r := runFiles now rest st
        (r.1, r.2.1 + 1, .fileError f.name :: r.2.2)

/-- The submit handler: `if not api_key` (the empty string is falsy) report
    the missing-credential error and stop before any service call; otherwise
    configure the client and run the loop. -/
def runBatch (apiKey : String) (inputs : List (FileInput × StreamResult)) (now : String)
    (st : Store) : Store × Nat × List Event :=
  if apiKey = "" then (st, 0, [.credentialError])
  else runFiles now inputs st

/-! ### Helper lemmas -/

lemma string_append_empty (s : String) : s ++ "" = s := by
  apply String.ext
  simp [String.data_append]

lemma string_append_assoc (a b c : String) : a ++ b ++ c = a ++ (b ++ c) := by
  apply String.ext
  simp [String.data_append]

lemma concatFragments_cons (c : String) (cs : List String) :
    concatFragments (c :: cs) = c ++ concatFragments cs := rfl

/-- The chunk loop yields every chunk in order and ends with the accumulator
    extended by their in-order concat. -/
lemma streamChunks_eq (cs : List String) :
    ∀ acc : String, streamChunks cs acc = (cs, acc ++ concatFragments cs) := by
  induction cs with
  | nil => intro acc; simp [streamChunks, concatFragments, string_append_empty]
  | cons c cs ih =>
    intro acc
    simp [streamChunks, ih, concatFragments_cons, string_append_assoc]

lemma pyFindIdx_eq_none_iff (c : Char) (cs : List Char) :
    pyFindIdx c cs = none ↔ c ∉ cs := by
  induction cs with
  | nil => simp [pyFindIdx]
  | cons x xs ih =>
    by_cases hx : x = c
    · simp [pyFindIdx, hx]
    · have hcx : ¬ c = x := fun h => hx h.symm
      simp [pyFindIdx, hx, ih, hcx]

lemma pyRFindIdx_eq_none_iff (c : Char) (cs : List Char) :
    pyRFindIdx c cs = none ↔ c ∉ cs := by
  induction cs with
  | nil => simp [pyRFindIdx]
  | cons x xs ih =>
    cases h : pyRFindIdx c xs with
    | some i =>
      have hmem : c ∈ xs := by
        by_contra hc
        rw [ih.mpr hc] at h
        exact Option.noConfusion h
      simp [pyRFindIdx, h, hmem]
    | none =>
      by_cases hx : x = c
      · simp [pyRFindIdx, h, hx]
      · have hcx : ¬ c = x := fun hh => hx hh.symm
        simp [pyRFindIdx, h, hx, hcx, ih.mp h]

lemma string_empty_append (s : String) : "" ++ s = s := by
  apply String.ext
  simp [String.data_append]

/-- strict/lossy agreement, by induction on the fuel. -/
lemma strict_ignore_aux : ∀ (fuel : Nat) (bs : List Nat) (cs : List Char),
    utf8DecodeStrictAux fuel bs = some cs → utf8DecodeIgnoreAux fuel bs = cs := by
  intro fuel
  induction fuel with
  | zero =>
    intro bs cs h
    cases bs with
    | nil =>
      simp only [utf8DecodeStrictAux, Option.some_inj] at h
      simp [utf8DecodeIgnoreAux, ← h]
    | cons b t => simp [utf8DecodeStrictAux] at h
  | succ n ih =>
    intro bs cs h
    cases bs with
    | nil =>
      simp only [utf8DecodeStrictAux, Option.some_inj] at h
      simp [utf8DecodeIgnoreAux, ← h]
    | cons b t =>
      cases hs : utf8Step (b :: t) with
      | ok pr =>
        obtain ⟨c0, rest⟩ := pr
        simp only [utf8DecodeStrictAux, hs, Option.map_eq_some'] at h
        obtain ⟨cs', hcs', hcons⟩ := h
        simp [utf8DecodeIgnoreAux, hs, ih rest cs' hcs', hcons]
      | error k => simp [utf8DecodeStrictAux, hs] at h

/-! ### Claim theorems -/

/-- C1: for a successful streaming run on one file, the summary persisted by
    `stream_data` equals the in-order concat of exactly the fragments it
    yielded: no fragment dropped, duplicated or reordered. -/
theorem stream_yields_equal_persisted_summary (chunks : List String) (fn now : String)
    (st : Store) :
    (streamData chunks fn now st).1 = chunks ∧
    (streamData chunks fn now st).2.records =
      { id := st.nextId, filename := fn,
        summary := concatFragments ((streamData chunks fn now st).1),
        time := now } :: st.records := by
  have h := streamChunks_eq chunks ""
  refine ⟨by simp [streamData, h], ?_⟩
  simp [streamData, h, insertRecord, string_empty_append]

/-- C5: on the spec's concrete example, extraction yields nodes A and B, the
    single (A, B, friend) edge, and the readable summary is the text before
    the first brace. -/
theorem extraction_on_intro_text_example :
    renderGraph "Intro text. \x7b\"nodes\":[\"A\",\"B\"],\"edges\":[[\"A\",\"B\",\"friend\"]]\x7d"
      = .rendered [.str "A", .str "B"] [(.str "A", .str "B", .str "friend")] ∧
    readableSummary "Intro text. \x7b\"nodes\":[\"A\",\"B\"],\"edges\":[[\"A\",\"B\",\"friend\"]]\x7d"
      = "Intro text. " := ⟨rfl, rfl⟩

/-- C6 counterexample: the code decodes with `errors="ignore"`, which drops
    the undecodable byte 0xFF, while the spec's "lossy replacement" decode
    would substitute U+FFFD; the two differ on the one-byte input 0xFF. -/
theorem decode_drops_instead_of_replacing :
    utf8DecodeIgnore [255] = [] ∧ specReplaceDecode [255] = [Char.ofNat 0xFFFD] ∧
    utf8DecodeIgnore [255] ≠ specReplaceDecode [255] := ⟨rfl, rfl, by decide⟩

/-- C6 amended: decoding never fails (the lossy decode is total) and agrees
    with strict UTF-8 decoding whenever the bytes are valid; undecodable
    sequences are dropped, not replaced. -/
theorem decode_never_fails_and_agrees_with_strict (bs : List Nat) (cs : List Char)
    (h : utf8DecodeStrict bs = some cs) : utf8DecodeIgnore bs = cs :=
  strict_ignore_aux bs.length bs cs h

theorem decode_never_fails_witness :
    utf8DecodeStrict [104, 105] = some ['h', 'i'] ∧ utf8DecodeIgnore [104, 105] = ['h', 'i'] :=
  ⟨by decide, decode_never_fails_and_agrees_with_strict [104, 105] ['h', 'i'] (by decide)⟩

/-- C7: with an absent/empty credential the batch stops at the error message:
    the store is unchanged and the generation service is invoked zero times,
    whatever the batch of files. -/
theorem missing_credential_blocks_batch (inputs : List (FileInput × StreamResult))
    (now : String) (st : Store) :
    runBatch "" inputs now st = (st, 0, [.credentialError]) := by
  simp [runBatch]

/-- C8: delete-all leaves the store with no rows — a subsequent list-all is
    empty — and running it again on the already-empty store is a no-op, not
    an error. -/
theorem delete_all_empties_store (st : Store) :
    listAll (deleteAll st) = [] ∧ deleteAll (deleteAll st) = deleteAll st := ⟨rfl, rfl⟩

/-- C2: along any run of the generator, no store mutation is visible while
    fragments are still pending; the committed state holds exactly the one
    new row inserted after the stream drained; a mid-stream failure leaves
    the store untouched; and neither terminal phase can step again, so the
    insert happens at most once. -/
theorem insert_only_after_stream_drained (fn now : String) (chunks : List String) (ok : Bool)
    (st0 : Store) (cfg : GenCfg)
    (h : Relation.ReflTransGen (GenStep fn now) (initCfg chunks ok st0) cfg) :
    (cfg.phase = .running → cfg.store = st0) ∧
    (cfg.phase = .raised → cfg.store = st0) ∧
    (cfg.phase = .committed →
      cfg.pending = [] ∧ cfg.store = insertRecord st0 fn cfg.buffer now) ∧
    (cfg.phase ≠ .running → ∀ d, ¬ GenStep fn now cfg d) := by
  induction h with
  | refl =>
    refine ⟨fun _ => rfl, ?_, ?_, fun hh => absurd rfl hh⟩ <;>
      (intro hh; simp [initCfg] at hh)
  | tail hsteps hstep ih =>
    cases hstep with
    | yield c cs ok2 buf stb =>
      have hb : stb = st0 := ih.1 rfl
      subst hb
      refine ⟨fun _ => rfl, ?_, ?_, fun hh => absurd rfl hh⟩ <;>
        (intro hh; simp at hh)
    | commit buf stb =>
      have hb : stb = st0 := ih.1 rfl
      subst hb
      refine ⟨?_, ?_, fun _ => ⟨rfl, rfl⟩, fun _ d hd => ?_⟩
      · intro hh; simp at hh
      · intro hh; simp at hh
      · cases hd
    | fail buf stb =>
      have hb : stb = st0 := ih.1 rfl
      subst hb
      refine ⟨?_, fun _ => rfl, ?_, fun _ d hd => ?_⟩
      · intro hh; simp at hh
      · intro hh; simp at hh
      · cases hd

theorem insert_only_after_stream_drained_witness :
    (initCfg ["a"] true initStore).store = initStore :=
  (insert_only_after_stream_drained "f" "t" ["a"] true initStore _
    Relation.ReflTransGen.refl).1 rfl

/-- C3: an oversized file (> 1 MiB) is skipped with a warning: no service
    call is made for it, no row is inserted for it, and the rest of the
    batch proceeds exactly as if the file were absent. -/
theorem oversized_file_skipped (apiKey : String) (hk : apiKey ≠ "") (f : FileInput)
    (res : StreamResult) (rest : List (FileInput × StreamResult)) (now : String) (st : Store)
    (hsize : f.size > 1024 * 1024) :
    runBatch apiKey ((f, res) :: rest) now st =
      ((runBatch apiKey rest now st).1, (runBatch apiKey rest now st).2.1,
        .sizeWarning f.name :: (runBatch apiKey rest now st).2.2) := by
  simp only [runBatch, if_neg hk]
  simp [runFiles, hsize]

theorem oversized_file_skipped_witness :
    runBatch "k" [(⟨"big.txt", List.replicate (1024 * 1024 + 1) 0⟩, .ok ["x"])] "now" initStore
      = (initStore, 0, [.sizeWarning "big.txt"]) := by
  have h := oversized_file_skipped "k" (by decide)
      ⟨"big.txt", List.replicate (1024 * 1024 + 1) 0⟩ (.ok ["x"]) [] "now" initStore
      (by show (List.replicate (1024 * 1024 + 1) (0 : Nat)).length > 1024 * 1024
          rw [List.length_replicate]
          exact Nat.lt_succ_self _)
  rw [h]
  rfl

/-- Reduction of `render_graph` once both brace positions are known. -/
lemma renderGraph_of_braces (s : String) (start close : Nat)
    (hf : pyFindIdx '{' s.data = some start) (hr : pyRFindIdx '}' s.data = some close) :
    renderGraph s =
      match extractGraph (pySlice s.data start (close + 1)) with
      | some (ns, es) => .rendered ns es
      | none => .malformed := by
  simp only [renderGraph, hf, hr]

/-- Reduction of `render_graph` when a brace is missing. -/
lemma renderGraph_of_no_brace (s : String)
    (h : pyFindIdx '{' s.data = none ∨ pyRFindIdx '}' s.data = none) :
    renderGraph s = .noGraph := by
  cases h with
  | inl h1 =>
    simp only [renderGraph, h1]
  | inr h2 =>
    simp only [renderGraph, h2]
    rcases pyFindIdx '{' s.data with _ | st <;> rfl

/-- C4: the extractor is a total function into its three outcomes; a missing
    first `{` or last `}` gives the explicit no-graph result, and any failure
    to decode or shape the brace-delimited slice is caught as the warning
    outcome, never propagated. -/
theorem extractor_total_and_catches (s : String) :
    ((('{' ∉ s.data) ∨ ('}' ∉ s.data)) → renderGraph s = .noGraph) ∧
    (∀ start close, pyFindIdx '{' s.data = some start →
      pyRFindIdx '}' s.data = some close →
      extractGraph (pySlice s.data start (close + 1)) = none →
      renderGraph s = .malformed) ∧
    (renderGraph s = .noGraph ∨ renderGraph s = .malformed ∨
      ∃ ns es, renderGraph s = .rendered ns es) := by
  refine ⟨?_, ?_, ?_⟩
  · intro h
    apply renderGraph_of_no_brace
    cases h with
    | inl h1 => exact Or.inl ((pyFindIdx_eq_none_iff _ _).mpr h1)
    | inr h2 => exact Or.inr ((pyRFindIdx_eq_none_iff _ _).mpr h2)
  · intro start close hf hr hex
    rw [renderGraph_of_braces s start close hf hr, hex]
  · rcases hf : pyFindIdx '{' s.data with _ | st
    · exact Or.inl (renderGraph_of_no_brace s (Or.inl hf))
    · rcases hr : pyRFindIdx '}' s.data with _ | cl
      · exact Or.inl (renderGraph_of_no_brace s (Or.inr hr))
      · rw [renderGraph_of_braces s st cl hf hr]
        rcases hex : extractGraph (pySlice s.data st (cl + 1)) with _ | pr
        · right; left; rfl
        · obtain ⟨ns, es⟩ := pr
          right; right; exact ⟨ns, es, rfl⟩

theorem extractor_total_witness : renderGraph "abc" = .noGraph :=
  (extractor_total_and_catches "abc").1 (Or.inl (by decide))

/-- C10: when both braces occur but the last `}` comes before the first `{`,
    the slice is empty, its decode fails, and the outcome is the caught
    warning — not the no-graph branch. -/
theorem close_before_open_is_malformed (s : String) (start close : Nat)
    (hf : pyFindIdx '{' s.data = some start) (hr : pyRFindIdx '}' s.data = some close)
    (hlt : close < start) :
    renderGraph s = .malformed ∧ renderGraph s ≠ .noGraph := by
  have hslice : pySlice s.data start (close + 1) = [] := by
    unfold pySlice
    apply List.drop_eq_nil_of_le
    calc (s.data.take (close + 1)).length ≤ close + 1 := by
          simp [List.length_take]
      _ ≤ start := hlt
  have hex : extractGraph (pySlice s.data start (close + 1)) = none := by
    rw [hslice]; rfl
  have hm : renderGraph s = .malformed := by
    rw [renderGraph_of_braces s start close hf hr, hex]
  exact ⟨hm, by rw [hm]; exact fun hh => GraphResult.noConfusion hh⟩

theorem close_before_open_witness : renderGraph "\x7d prose \x7b" = .malformed :=
  (close_before_open_is_malformed "\x7d prose \x7b" 8 0 (by decide) (by decide) (by decide)).1

/-- Store well-formedness: every id is below the AUTOINCREMENT counter, and
    ids strictly decrease down the newest-first list (so later inserts always
    receive strictly larger ids). -/
def StoreWF (st : Store) : Prop :=
  (∀ r ∈ st.records, r.id < st.nextId) ∧ st.records.Pairwise (fun a b => b.id < a.id)

lemma storeWF_applyOp (st : Store) (op : StoreOp) (h : StoreWF st) : StoreWF (applyOp st op) := by
  cases op with
  | insertOp f s t =>
    obtain ⟨hlt, hpw⟩ := h
    constructor
    · intro r hr
      simp only [applyOp, insertRecord, List.mem_cons] at hr ⊢
      cases hr with
      | inl hr => subst hr; exact Nat.lt_succ_self st.nextId
      | inr hr => exact Nat.lt_succ_of_lt (hlt r hr)
    · simp only [applyOp, insertRecord, List.pairwise_cons]
      exact ⟨fun b hb => hlt b hb, hpw⟩
  | deleteAllOp => simp [applyOp, deleteAll, StoreWF]

lemma storeWF_applyOps (ops : List StoreOp) :
    ∀ st : Store, StoreWF st → StoreWF (applyOps st ops) := by
  induction ops with
  | nil => intro st h; exact h
  | cons op ops ih => intro st h; exact ih (applyOp st op) (storeWF_applyOp st op h)

/-- C9: ids are unique across the store after any sequence of the script's
    store operations, and records are immutable: any row present after an
    operation was either already present, or is the row the insert created
    with the freshly assigned id (delete-all removes rows, never edits one). -/
theorem ids_unique_and_records_immutable :
    (∀ ops : List StoreOp,
      ((applyOps initStore ops).records.map AnalysisRecord.id).Nodup) ∧
    (∀ (st : Store) (op : StoreOp) (r : AnalysisRecord),
      r ∈ (applyOp st op).records →
      r ∈ st.records ∨ (op = .insertOp r.filename r.summary r.time ∧ r.id = st.nextId)) := by
  constructor
  · intro ops
    have h := storeWF_applyOps ops initStore ⟨by simp [initStore], by simp [initStore]⟩
    have hpw := h.2
    unfold List.Nodup
    rw [List.pairwise_map]
    exact hpw.imp (fun hab => Nat.ne_of_gt hab)
  · intro st op r hr
    cases op with
    | insertOp f s t =>
      simp only [applyOp, insertRecord, List.mem_cons] at hr
      cases hr with
      | inl h => subst h; exact Or.inr ⟨rfl, rfl⟩
      | inr h => exact Or.inl h
    | deleteAllOp => simp [applyOp, deleteAll] at hr

theorem ids_unique_witness :
    (⟨1, "f", "s", "t"⟩ : AnalysisRecord) ∈
      (applyOp initStore (.insertOp "f" "s" "t")).records ∧
    ((⟨1, "f", "s", "t"⟩ : AnalysisRecord) ∈ initStore.records ∨
      (StoreOp.insertOp "f" "s" "t" =
        .insertOp ("f" : String) ("s" : String) ("t" : String) ∧ (1 : Nat) = initStore.nextId)) :=
  ⟨by decide, ids_unique_and_records_immutable.2 initStore (.insertOp "f" "s" "t")
    ⟨1, "f", "s", "t"⟩ (by decide)⟩

end StoryStation
